import Mathlib

/-!
Verification development for the folder-scan / file-process pipeline
(`src/modules/folder_scanner.py`, `src/modules/file_processor.py`,
`src/config.py`, `src/utils/tracker.py`).

Modelling conventions:
* Paths are lists of components (`List String`); the OS guarantees that the
  names yielded by `iterdir` contain no separators, so `os.path.join`
  becomes list append and `os.path.basename` becomes the last component.
* The filesystem is an abstract tree `FSEntry`; a directory carries a
  `denied` flag meaning its `iterdir` raises `PermissionError` on open
  (the scanner's two `iterdir` calls both fail for such a directory).
* `uuid.uuid4()` fresh tokens are modelled by a threaded `Nat` counter;
  `datetime.now().isoformat()` by an abstract `now : String` argument.
* The tracker is modelled by the list of events a run appends
  (`TrackEvent`); info-level logging inside the processor is elided since
  it does not affect any result.  The ghost event `enumDir` records that a
  directory's entries were successfully enumerated (`iterdir` succeeded),
  which makes the depth-limit property about enumeration statable.
* Effects of `os.path.getsize` / `os.stat` / metadata extraction on a
  given file are supplied by an abstract `FileWorld`; an unexpected
  exception escaping `_process_file` (the defensive catch in
  `process_folder`) is `outerFault`, and an unexpected exception while
  processing a whole folder (the catch in `process_folders`) is
  `World.folderFault`.
* Python `float` arithmetic in `get_summary` is modelled exactly over
  `Rat`.
-/

/-- Abstract filesystem tree.  `denied = true` models a directory whose
`iterdir` raises `PermissionError` when opened. -/
inductive FSEntry where
  | file (name : String)
  | dir (name : String) (denied : Bool) (entries : List FSEntry)

/-- `src/config.py` `Config` — the fields read by scanner and processor. -/
structure Config where
  supported_extensions : List String
  primary_extension : String
  max_depth : Nat
  skip_hidden_folders : Bool
  skip_hidden_files : Bool

/-- The global `config = Config()` instance with the dataclass defaults. -/
def defaultConfig : Config :=
  { supported_extensions := [".pdf", ".doc", ".docx", ".xls", ".xlsx", ".txt", ".csv"]
    primary_extension := ".pdf"
    max_depth := 10
    skip_hidden_folders := true
    skip_hidden_files := true }

/-- Suffix of `cs` starting at its last dot, or `[]` when `cs` has no dot. -/
def extFromLastDot : List Char → List Char
  | [] => []
  | c :: rest =>
    let e := extFromLastDot rest
    if e.isEmpty then (if c = '.' then c :: rest else []) else e

/-- `os.path.splitext(name)[1]` for a bare file name: the extension starts at
the last dot, provided some earlier character of the name is not a dot
(leading dots are not extension separators, so `.bashrc` has no extension). -/
def splitextExt (name : String) : String :=
  String.mk (extFromLastDot (name.toList.dropWhile (fun c => c = '.')))

/-- Python `str.lstrip('.')`: drop every leading dot. -/
def stripLeadingDots (s : String) : String :=
  String.mk (s.toList.dropWhile (fun c => c = '.'))

/-- Python `str.lower()` on the ASCII strings compared here. -/
def strLower (s : String) : String :=
  String.mk (s.toList.map Char.toLower)

/-- Python `name.startswith('.')` — the hidden-name marker check. -/
def startsWithDot (s : String) : Bool :=
  match s.toList with
  | [] => false
  | c :: _ => c = '.'

/-- `Config.is_supported_file`: extension (lowercased, dot included) is in the
supported list.  The extension of a path is that of its final component, so
the model takes the file name. -/
def Config.is_supported_file (cfg : Config) (name : String) : Bool :=
  cfg.supported_extensions.contains (strLower (splitextExt name))

/-- `Config.is_primary_file`: extension equals the configured primary one. -/
def Config.is_primary_file (cfg : Config) (name : String) : Bool :=
  strLower (splitextExt name) == cfg.primary_extension

/-- `os.path.basename` on a component-list path. -/
def baseName (p : List String) : String :=
  p.getLastD ""

/-- `FileProcessor._get_file_type`: `splitext(filepath)[1].lower().lstrip('.')`. -/
def getFileType (p : List String) : String :=
  stripLeadingDots (strLower (splitextExt (baseName p)))

/-- One tracker event recorded during a run, plus the ghost `enumDir` trace
event marking a successful directory enumeration at a given depth. -/
inductive TrackEvent where
  | info (msg : String)
  | warning (msg : String)
  | error (msg : String)
  | enumDir (path : List String) (depth : Nat)
deriving DecidableEq

/-- `FolderInfo` from `folder_scanner.py`. -/
structure FolderInfo where
  guid : Nat
  path : List String
  name : String
  file_count : Nat
  files : List String
  parent_path : List String
  depth : Nat
  discovered_at : String
deriving DecidableEq

/-- Mutable state threaded through `_scan_recursive`: the instance's
`scanned_folders`, the tracker's events, and the fresh-guid supply. -/
structure ScanState where
  folders : List FolderInfo
  events : List TrackEvent
  nextGuid : Nat
deriving DecidableEq

/-- `FolderScanner._get_processable_files`: direct file entries, skipping
hidden files when configured, keeping supported extensions, in enumeration
order.  A denied directory yields `[]` (the `PermissionError` is swallowed
there and the accumulated partial list — empty, since `iterdir` fails on
open — is returned). -/
def getProcessableFiles (cfg : Config) (denied : Bool) (entries : List FSEntry) : List String :=
  if denied then []
  else
    entries.filterMap fun e =>
      match e with
      | .file n =>
        if cfg.skip_hidden_files && startsWithDot n then none
        else if cfg.is_supported_file n then some n else none
      | .dir _ _ _ => none

mutual

/-- `FolderScanner._scan_recursive`.  Mirrors the Python control flow: depth
guard, hidden-folder guard, processable-file collection and folder record,
then recursion into direct subdirectories; a denied directory logs one
error and contributes nothing else. -/
def scanRecursive (cfg : Config) (now : String) (e : FSEntry) (parent : List String)
    (depth : Nat) (s : ScanState) : ScanState :=
  match e with
  | .file _ => s
  | .dir name denied entries =>
    if cfg.max_depth < depth then
      { s with events := s.events ++ [.warning "Max depth reached"] }
    else if cfg.skip_hidden_folders && startsWithDot name then s
    else
      let path := parent ++ [name]
      let pf := getProcessableFiles cfg denied entries
      let s1 :=
        if pf.isEmpty then s
        else
          { s with
            folders := s.folders ++ [{ guid := s.nextGuid, path := path, name := name,
                                       file_count := pf.length, files := pf,
                                       parent_path := parent, depth := depth,
                                       discovered_at := now }]
            events := s.events ++ [.info ("Found folder: " ++ name)]
            nextGuid := s.nextGuid + 1 }
      if denied then
        { s1 with events := s1.events ++ [.error "Permission denied accessing directory"] }
      else
        let s2 := { s1 with events := s1.events ++ [.enumDir path depth] }
        scanList cfg now entries path (depth + 1) s2

/-- The `for item in folder.iterdir(): if item.is_dir(): ...` loop. -/
def scanList (cfg : Config) (now : String) (es : List FSEntry) (parent : List String)
    (depth : Nat) (s : ScanState) : ScanState :=
  match es with
  | [] => s
  | e :: rest =>
    let s1 :=
      match e with
      | .dir _ _ _ => scanRecursive cfg now e parent depth s
      | .file _ => s
    scanList cfg now rest parent depth s1

end

/-- Failures raised by `FolderScanner.scan`. -/
inductive ScanError where
  | notFound
  | notADirectory
deriving DecidableEq

/-- Outcome of one `scan` call: the raised-or-returned result, the
instance's `scanned_folders` after the call, the events this call logged,
and the guid supply after the call. -/
structure ScanOutcome where
  result : Except ScanError (List FolderInfo)
  scanned_folders : List FolderInfo
  events : List TrackEvent
  nextGuid : Nat

/-- `FolderScanner.scan`.  The root lookup result is abstract: `none` means
the path does not exist, `some (.file _)` exists but is not a directory,
`some (.dir ..)` is a directory.  `self.scanned_folders = []` runs first,
so the prior instance state `inst` is discarded. -/
def scan (cfg : Config) (now : String) (root : Option FSEntry) (rootParent : List String)
    (_inst : List FolderInfo) (g : Nat) : ScanOutcome :=
  match root with
  | none =>
    { result := .error .notFound, scanned_folders := []
      events := [.error "Root path does not exist"], nextGuid := g }
  | some (.file _) =>
    { result := .error .notADirectory, scanned_folders := []
      events := [.error "Root path is not a directory"], nextGuid := g }
  | some (.dir name denied entries) =>
    let s0 : ScanState := { folders := [], events := [.info "Starting scan"], nextGuid := g }
    let s1 := scanRecursive cfg now (.dir name denied entries) rootParent 0 s0
    { result := .ok s1.folders, scanned_folders := s1.folders
      events := s1.events ++ [.info "Scan complete"], nextGuid := s1.nextGuid }

/-- `ProcessingStatus` from `file_processor.py`. -/
inductive ProcessingStatus where
  | pending
  | processing
  | completed
  | error
  | skipped
deriving DecidableEq

/-- A metadata value: a string (timestamps) or Python `None`. -/
inductive MetaValue where
  | str (s : String)
  | nullVal
deriving DecidableEq

/-- `FileResult` from `file_processor.py`. -/
structure FileResult where
  file_guid : Nat
  filename : String
  filepath : List String
  folder_guid : Nat
  status : ProcessingStatus
  file_type : String
  file_size : Nat
  processed_at : String
  error_message : Option String
  metadata : List (String × MetaValue)
deriving DecidableEq

/-- `FolderResult` from `file_processor.py`. -/
structure FolderResult where
  folder_guid : Nat
  folder_path : List String
  folder_name : String
  total_files : Nat
  processed_files : Nat
  error_files : Nat
  skipped_files : Nat
  file_results : List FileResult
  started_at : String
  completed_at : Option String
deriving DecidableEq

/-- What the filesystem does when `_extract_metadata` runs on a file:
`ok stat` — no exception escapes; `stat = some (ctime, mtime, atime)` when
`os.stat` succeeds, `none` when it raises `OSError` (caught inside).
`raise msg` — some step raises an exception not caught inside
`_extract_metadata` (e.g. a timestamp conversion failure). -/
inductive ExtractOutcome where
  | ok (stat : Option (String × String × String))
  | raise (msg : String)

/-- Behaviour of the external world for one file path. `outerFault` models
an unexpected exception escaping `_process_file` itself (handled by the
defensive catch in `process_folder`); `sizeResult` is `os.path.getsize`
(`none` = raises `OSError`). -/
structure FileWorld where
  outerFault : Option String
  sizeResult : Option Nat
  extract : ExtractOutcome

/-- Behaviour of the external world for a whole processing run. -/
structure World where
  fileAt : List String → FileWorld
  folderFault : List String → Option String

/-- The dictionary built by `FileProcessor._extract_metadata` when no
exception escapes: the `extracted_at` stamp, best-effort stat timestamps,
and for the `pdf` file type the two reserved keys with `None` values. -/
def metadataDict (stat : Option (String × String × String)) (file_type : String)
    (now : String) : List (String × MetaValue) :=
  let m := [("extracted_at", MetaValue.str now)]
  let m :=
    match stat with
    | some (c, mt, a) =>
      m ++ [("created", MetaValue.str c), ("modified", MetaValue.str mt),
            ("accessed", MetaValue.str a)]
    | none => m
  if file_type = "pdf" then
    m ++ [("page_count", MetaValue.nullVal), ("pdf_version", MetaValue.nullVal)]
  else m

/-- `FileProcessor._extract_metadata`: builds the metadata dictionary, or
propagates an escaping exception as `.error`. -/
def extractMetadata (fw : FileWorld) (file_type : String) (now : String) :
    Except String (List (String × MetaValue)) :=
  match fw.extract with
  | .raise msg => .error msg
  | .ok stat => .ok (metadataDict stat file_type now)

/-- `FileProcessor._process_file`.  Returns `(.error msg, g)` when an
unexpected exception escapes the call (consumed by the caller's defensive
catch); otherwise exactly one `FileResult`, `completed` on successful
extraction and `error` with the failure description otherwise. -/
def processFile (fw : FileWorld) (filepath : List String) (folder_guid : Nat) (g : Nat)
    (now : String) : Except String FileResult × Nat :=
  match fw.outerFault with
  | some msg => (.error msg, g)
  | none =>
    let filename := baseName filepath
    let file_type := getFileType filepath
    let file_size := fw.sizeResult.getD 0
    match extractMetadata fw file_type now with
    | .ok m =>
      (.ok { file_guid := g, filename := filename, filepath := filepath,
             folder_guid := folder_guid, status := .completed, file_type := file_type,
             file_size := file_size, processed_at := now, error_message := none,
             metadata := m }, g + 1)
    | .error msg =>
      (.ok { file_guid := g, filename := filename, filepath := filepath,
             folder_guid := folder_guid, status := .error, file_type := file_type,
             file_size := file_size, processed_at := now, error_message := some msg,
             metadata := [] }, g + 1)

/-- Accumulator of the per-file loop in `process_folder`. -/
structure FolderAcc where
  file_results : List FileResult
  processed : Nat
  errors : Nat
  skipped : Nat
  g : Nat

/-- One iteration of the file loop in `process_folder`: process the file,
append its result, bump the matching status counter; on an escaped
exception, append the defensively built error `FileResult` (fresh guid,
size 0, the failure description as message). -/
def stepFile (w : World) (folderPath : List String) (folderGuid : Nat) (now : String)
    (acc : FolderAcc) (filename : String) : FolderAcc :=
  let filepath := folderPath ++ [filename]
  let fw := w.fileAt filepath
  match processFile fw filepath folderGuid acc.g now with
  | (.ok r, g1) =>
    { file_results := acc.file_results ++ [r]
      processed := acc.processed + (if r.status = .completed then 1 else 0)
      errors := acc.errors + (if r.status = .error then 1 else 0)
      skipped := acc.skipped + (if r.status = .skipped then 1 else 0)
      g := g1 }
  | (.error msg, g1) =>
    { file_results := acc.file_results ++
        [{ file_guid := g1, filename := filename, filepath := filepath,
           folder_guid := folderGuid, status := .error,
           file_type := getFileType filepath, file_size := 0,
           processed_at := now, error_message := some msg, metadata := [] }]
      processed := acc.processed
      errors := acc.errors + 1
      skipped := acc.skipped
      g := g1 + 1 }

/-- The `for filename in folder.files` loop of `process_folder`. -/
def processFilesLoop (w : World) (folderPath : List String) (folderGuid : Nat)
    (now : String) : List String → FolderAcc → FolderAcc
  | [], acc => acc
  | f :: rest, acc =>
    processFilesLoop w folderPath folderGuid now rest
      (stepFile w folderPath folderGuid now acc f)

/-- `FileProcessor.process_folder`.  `.error msg` models an unexpected
exception escaping the folder-level call (handled by `process_folders`). -/
def processFolder (w : World) (folder : FolderInfo) (g : Nat) (now : String) :
    Except String (FolderResult × Nat) :=
  match w.folderFault folder.path with
  | some msg => .error msg
  | none =>
    let acc := processFilesLoop w folder.path folder.guid now folder.files
      { file_results := [], processed := 0, errors := 0, skipped := 0, g := g }
    .ok ({ folder_guid := folder.guid, folder_path := folder.path,
           folder_name := folder.name, total_files := folder.files.length,
           processed_files := acc.processed, error_files := acc.errors,
           skipped_files := acc.skipped, file_results := acc.file_results,
           started_at := now, completed_at := some now }, acc.g)

/-- Outcome of one `process_folders` call: the returned list (which is also
the instance's `results` state after the call), the error events logged
for dropped folders, and the guid supply after the call. -/
structure ProcessOutcome where
  results : List FolderResult
  events : List TrackEvent
  nextGuid : Nat
deriving DecidableEq

/-- The folder loop of `process_folders`: folder-level failures are logged
and the folder omitted; successes are appended in order. -/
def processFoldersLoop (w : World) (now : String) :
    List FolderInfo → List FolderResult → List TrackEvent → Nat → ProcessOutcome
  | [], acc, evs, g => { results := acc, events := evs, nextGuid := g }
  | f :: rest, acc, evs, g =>
    match processFolder w f g now with
    | .ok (fr, g1) => processFoldersLoop w now rest (acc ++ [fr]) evs g1
    | .error msg =>
      processFoldersLoop w now rest acc
        (evs ++ [.error ("Failed to process folder: " ++ msg)]) g

/-- `FileProcessor.process_folders`.  `self.results = []` runs first, so the
prior instance state `_inst` is discarded. -/
def processFolders (w : World) (folders : List FolderInfo) (_inst : List FolderResult)
    (g : Nat) (now : String) : ProcessOutcome :=
  processFoldersLoop w now folders [] [] g

/-- The dictionary returned by `FileProcessor.get_summary`, with the float
success rate modelled exactly over `Rat`. -/
structure Summary where
  total_folders : Nat
  total_files : Nat
  total_processed : Nat
  total_errors : Nat
  total_skipped : Nat
  success_rate : Rat
deriving DecidableEq

/-- `FileProcessor.get_summary` over the instance's `results` state. -/
def getSummary (results : List FolderResult) : Summary :=
  let total_files := (results.map (fun r => r.total_files)).sum
  let total_processed := (results.map (fun r => r.processed_files)).sum
  { total_folders := results.length
    total_files := total_files
    total_processed := total_processed
    total_errors := (results.map (fun r => r.error_files)).sum
    total_skipped := (results.map (fun r => r.skipped_files)).sum
    success_rate :=
      if 0 < total_files then (total_processed : Rat) / (total_files : Rat) * 100 else 0 }


/-- Folder-record invariant established by the scanner for records created
at depth at least `dlow`. -/
def FolderOk (cfg : Config) (dlow : Nat) (f : FolderInfo) : Prop :=
  f.file_count = f.files.length ∧ f.files ≠ [] ∧
  (∀ n ∈ f.files, cfg.is_supported_file n = true) ∧
  dlow ≤ f.depth ∧ f.depth ≤ cfg.max_depth

/-- Enumeration-trace invariant: any `enumDir` event sits between `dlow`
and the configured depth limit. -/
def EventOk (cfg : Config) (dlow : Nat) (ev : TrackEvent) : Prop :=
  ∀ p d, ev = .enumDir p d → dlow ≤ d ∧ d ≤ cfg.max_depth

theorem FolderOk_mono {cfg : Config} {d d' : Nat} {f : FolderInfo}
    (h : d ≤ d') (hf : FolderOk cfg d' f) : FolderOk cfg d f :=
  ⟨hf.1, hf.2.1, hf.2.2.1, le_trans h hf.2.2.2.1, hf.2.2.2.2⟩

theorem EventOk_mono {cfg : Config} {d d' : Nat} {ev : TrackEvent}
    (h : d ≤ d') (he : EventOk cfg d' ev) : EventOk cfg d ev := by
  intro p dd hd
  exact ⟨le_trans h (he p dd hd).1, (he p dd hd).2⟩

theorem getProcessableFiles_supported (cfg : Config) (denied : Bool) (entries : List FSEntry) :
    ∀ n ∈ getProcessableFiles cfg denied entries, cfg.is_supported_file n = true := by
  intro n hn
  cases denied with
  | true => simp [getProcessableFiles] at hn
  | false =>
    simp only [getProcessableFiles, Bool.false_eq_true, if_false] at hn
    rw [List.mem_filterMap] at hn
    obtain ⟨e, he, hsome⟩ := hn
    cases e with
    | file m =>
      by_cases h1 : (cfg.skip_hidden_files && startsWithDot m) = true
      · simp [h1] at hsome
      · by_cases h2 : cfg.is_supported_file m = true
        · simp [h1, h2] at hsome
          subst hsome
          exact h2
        · simp [h1, h2] at hsome
    | dir a b c => simp at hsome

theorem getProcessableFiles_denied (cfg : Config) (entries : List FSEntry) :
    getProcessableFiles cfg true entries = [] := by
  simp [getProcessableFiles]

mutual

theorem scanRecursive_sound (cfg : Config) (now : String) (e : FSEntry) (parent : List String)
    (depth : Nat) (s : ScanState) :
    (∀ f ∈ (scanRecursive cfg now e parent depth s).folders,
        f ∈ s.folders ∨ FolderOk cfg depth f) ∧
    (∀ ev ∈ (scanRecursive cfg now e parent depth s).events,
        ev ∈ s.events ∨ EventOk cfg depth ev) := by
  cases e with
  | file n =>
    rw [scanRecursive]
    exact ⟨fun f hf => .inl hf, fun ev hev => .inl hev⟩
  | dir name denied entries =>
    rw [scanRecursive]
    by_cases h1 : cfg.max_depth < depth
    · simp only [if_pos h1]
      refine ⟨fun f hf => .inl hf, fun ev hev => ?_⟩
      rcases List.mem_append.1 hev with h | h
      · exact .inl h
      · right
        rcases List.mem_singleton.1 h with rfl
        intro p d hd
        cases hd
    · simp only [if_neg h1]
      by_cases h2 : (cfg.skip_hidden_folders && startsWithDot name) = true
      · simp only [if_pos h2]
        exact ⟨fun f hf => .inl hf, fun ev hev => .inl hev⟩
      · simp only [if_neg h2]
        cases denied with
        | true =>
          simp only [getProcessableFiles_denied, List.isEmpty_nil, if_true]
          refine ⟨fun f hf => .inl hf, fun ev hev => ?_⟩
          rcases List.mem_append.1 hev with h | h
          · exact .inl h
          · right
            rcases List.mem_singleton.1 h with rfl
            intro p d hd
            cases hd
        | false =>
          have hdle : depth ≤ cfg.max_depth := Nat.le_of_not_lt h1
          by_cases h3 : (getProcessableFiles cfg false entries).isEmpty
          · simp only [h3, if_true, Bool.false_eq_true, if_false]
            refine ⟨fun f hf => ?_, fun ev hev => ?_⟩
            · rcases (scanList_sound cfg now entries (parent ++ [name]) (depth + 1) _).1 f hf with h | h
              · exact .inl h
              · exact .inr (FolderOk_mono (Nat.le_succ depth) h)
            · rcases (scanList_sound cfg now entries (parent ++ [name]) (depth + 1) _).2 ev hev with h | h
              · rcases List.mem_append.1 h with h' | h'
                · exact .inl h'
                · right
                  rcases List.mem_singleton.1 h' with rfl
                  intro p d hd
                  cases hd
                  exact ⟨le_refl depth, hdle⟩
              · exact .inr (EventOk_mono (Nat.le_succ depth) h)
          · simp only [h3, if_false, Bool.false_eq_true]
            have hnew : FolderOk cfg depth
                { guid := s.nextGuid, path := parent ++ [name], name := name,
                  file_count := (getProcessableFiles cfg false entries).length,
                  files := getProcessableFiles cfg false entries,
                  parent_path := parent, depth := depth, discovered_at := now } := by
              refine ⟨rfl, ?_, ?_, le_refl depth, hdle⟩
              · intro hcon
                have hpf : getProcessableFiles cfg false entries = [] := hcon
                rw [hpf] at h3
                exact h3 List.isEmpty_nil
              · intro n hn
                exact getProcessableFiles_supported cfg false entries n hn
            refine ⟨fun f hf => ?_, fun ev hev => ?_⟩
            · rcases (scanList_sound cfg now entries (parent ++ [name]) (depth + 1) _).1 f hf with h | h
              · rcases List.mem_append.1 h with h' | h'
                · exact .inl h'
                · right
                  rcases List.mem_singleton.1 h' with rfl
                  exact hnew
              · exact .inr (FolderOk_mono (Nat.le_succ depth) h)
            · rcases (scanList_sound cfg now entries (parent ++ [name]) (depth + 1) _).2 ev hev with h | h
              · rcases List.mem_append.1 h with h' | h'
                · rcases List.mem_append.1 h' with h'' | h''
                  · exact .inl h''
                  · right
                    rcases List.mem_singleton.1 h'' with rfl
                    intro p d hd
                    cases hd
                · right
                  rcases List.mem_singleton.1 h' with rfl
                  intro p d hd
                  cases hd
                  exact ⟨le_refl depth, hdle⟩
              · exact .inr (EventOk_mono (Nat.le_succ depth) h)

theorem scanList_sound (cfg : Config) (now : String) (es : List FSEntry) (parent : List String)
    (depth : Nat) (s : ScanState) :
    (∀ f ∈ (scanList cfg now es parent depth s).folders,
        f ∈ s.folders ∨ FolderOk cfg depth f) ∧
    (∀ ev ∈ (scanList cfg now es parent depth s).events,
        ev ∈ s.events ∨ EventOk cfg depth ev) := by
  cases es with
  | nil =>
    rw [scanList]
    exact ⟨fun f hf => .inl hf, fun ev hev => .inl hev⟩
  | cons e rest =>
    rw [scanList.eq_def]
    cases e with
    | file n =>
      simp only []
      exact ⟨fun f hf => (scanList_sound cfg now rest parent depth s).1 f hf,
             fun ev hev => (scanList_sound cfg now rest parent depth s).2 ev hev⟩
    | dir nm dn en =>
      simp only []
      have h1 := scanRecursive_sound cfg now (.dir nm dn en) parent depth s
      have h2 := scanList_sound cfg now rest parent depth
        (scanRecursive cfg now (.dir nm dn en) parent depth s)
      refine ⟨fun f hf => ?_, fun ev hev => ?_⟩
      · rcases h2.1 f hf with h | h
        · exact h1.1 f h
        · exact .inr h
      · rcases h2.2 ev hev with h | h
        · exact h1.2 ev h
        · exact .inr h

end

theorem scanRecursive_depth_exceeded (cfg : Config) (now name : String) (denied : Bool)
    (entries : List FSEntry) (parent : List String) (depth : Nat) (s : ScanState)
    (h : cfg.max_depth < depth) :
    scanRecursive cfg now (.dir name denied entries) parent depth s =
      { s with events := s.events ++ [.warning "Max depth reached"] } := by
  rw [scanRecursive]
  rw [if_pos h]

theorem scanRecursive_hidden (cfg : Config) (now name : String) (denied : Bool)
    (entries : List FSEntry) (parent : List String) (depth : Nat) (s : ScanState)
    (h1 : ¬ cfg.max_depth < depth)
    (h2 : (cfg.skip_hidden_folders && startsWithDot name) = true) :
    scanRecursive cfg now (.dir name denied entries) parent depth s = s := by
  rw [scanRecursive]
  rw [if_neg h1, if_pos h2]

theorem scanRecursive_denied (cfg : Config) (now name : String)
    (entries : List FSEntry) (parent : List String) (depth : Nat) (s : ScanState)
    (h1 : ¬ cfg.max_depth < depth)
    (h2 : (cfg.skip_hidden_folders && startsWithDot name) = false) :
    scanRecursive cfg now (.dir name true entries) parent depth s =
      { s with events := s.events ++ [.error "Permission denied accessing directory"] } := by
  rw [scanRecursive]
  rw [if_neg h1]
  rw [if_neg (by rw [h2]; exact Bool.false_ne_true)]
  simp only [getProcessableFiles_denied, List.isEmpty_nil, if_pos, if_true]

theorem scan_folders_ok (cfg : Config) (now : String) (root : Option FSEntry)
    (rootParent : List String) (inst : List FolderInfo) (g : Nat) (fs : List FolderInfo)
    (h : (scan cfg now root rootParent inst g).result = .ok fs) :
    ∀ f ∈ fs, FolderOk cfg 0 f := by
  cases root with
  | none => simp [scan] at h
  | some e =>
    cases e with
    | file n => simp [scan] at h
    | dir name denied entries =>
      simp only [scan, Except.ok.injEq] at h
      subst h
      intro f hf
      rcases (scanRecursive_sound cfg now (.dir name denied entries) rootParent 0
        { folders := [], events := [.info "Starting scan"], nextGuid := g }).1 f hf with h' | h'
      · simp at h'
      · exact h'

theorem scan_enum_events_bounded (cfg : Config) (now : String) (root : Option FSEntry)
    (rootParent : List String) (inst : List FolderInfo) (g : Nat) (p : List String) (d : Nat)
    (h : TrackEvent.enumDir p d ∈ (scan cfg now root rootParent inst g).events) :
    d ≤ cfg.max_depth := by
  cases root with
  | none => simp [scan] at h
  | some e =>
    cases e with
    | file n => simp [scan] at h
    | dir name denied entries =>
      simp only [scan] at h
      rcases List.mem_append.1 h with h' | h'
      · rcases (scanRecursive_sound cfg now (.dir name denied entries) rootParent 0
          { folders := [], events := [.info "Starting scan"], nextGuid := g }).2 _ h' with h'' | h''
        · simp at h''
        · exact (h'' p d rfl).2
      · simp at h'

/-- C2: `scan` fails with `notFound` when the root path does not exist, with
`notADirectory` when it exists but is not a directory, and on any existing
directory root it returns the folder list without failing; a
permission-denied directory met during the traversal (within the depth
limit, not hidden-skipped) merely logs one tracker error and leaves the
accumulated scan state otherwise unchanged — the subtree is skipped and
the scan continues. -/
theorem scan_error_contract :
    (∀ cfg now rootParent inst g,
      (scan cfg now none rootParent inst g).result = .error .notFound) ∧
    (∀ cfg now n rootParent inst g,
      (scan cfg now (some (.file n)) rootParent inst g).result = .error .notADirectory) ∧
    (∀ cfg now name denied entries rootParent inst g,
      (scan cfg now (some (.dir name denied entries)) rootParent inst g).result =
        .ok (scan cfg now (some (.dir name denied entries)) rootParent inst g).scanned_folders) ∧
    (∀ cfg now name entries parent depth s, ¬ cfg.max_depth < depth →
      (cfg.skip_hidden_folders && startsWithDot name) = false →
      scanRecursive cfg now (.dir name true entries) parent depth s =
        { s with events := s.events ++ [.error "Permission denied accessing directory"] }) := by
  refine ⟨fun cfg now rootParent inst g => rfl, fun cfg now n rootParent inst g => rfl,
    fun cfg now name denied entries rootParent inst g => rfl,
    fun cfg now name entries parent depth s h1 h2 => ?_⟩
  exact scanRecursive_denied cfg now name entries parent depth s h1 h2

theorem scan_error_contract_witness :
    (¬ defaultConfig.max_depth < 0) ∧
    ((defaultConfig.skip_hidden_folders && startsWithDot "locked") = false) ∧
    scanRecursive defaultConfig "t" (.dir "locked" true []) [] 0
        { folders := [], events := [], nextGuid := 0 } =
      { folders := [], events := [TrackEvent.error "Permission denied accessing directory"],
        nextGuid := 0 } :=
  ⟨by decide, by decide,
    scan_error_contract.2.2.2 defaultConfig "t" "locked" [] [] 0
      { folders := [], events := [], nextGuid := 0 } (by decide) (by decide)⟩

/-- C3: every folder a scan reports has `file_count` equal to the length of
its file list, at least one file, and only files whose (case-insensitively
lowered) extension is in the configured supported set; a directory whose
direct processable-file list is empty is never recorded itself — every
folder produced while scanning it belongs to a strictly deeper directory. -/
theorem scan_folder_invariants :
    (∀ cfg now root rootParent inst g fs,
      (scan cfg now root rootParent inst g).result = .ok fs →
      ∀ f ∈ fs, f.file_count = f.files.length ∧ 1 ≤ f.files.length ∧
        ∀ n ∈ f.files, cfg.is_supported_file n = true) ∧
    (∀ cfg now name denied entries parent depth s,
      getProcessableFiles cfg denied entries = [] →
      ∀ f ∈ (scanRecursive cfg now (.dir name denied entries) parent depth s).folders,
        f ∈ s.folders ∨ depth < f.depth) := by
  constructor
  · intro cfg now root rootParent inst g fs h f hf
    have hok := scan_folders_ok cfg now root rootParent inst g fs h f hf
    refine ⟨hok.1, ?_, hok.2.2.1⟩
    have := hok.2.1
    cases hfs : f.files with
    | nil => exact absurd hfs this
    | cons a l => simp [hfs]
  · intro cfg now name denied entries parent depth s hpf f hf
    by_cases h1 : cfg.max_depth < depth
    · rw [scanRecursive_depth_exceeded cfg now name denied entries parent depth s h1] at hf
      exact .inl hf
    · by_cases h2 : (cfg.skip_hidden_folders && startsWithDot name) = true
      · rw [scanRecursive_hidden cfg now name denied entries parent depth s h1 h2] at hf
        exact .inl hf
      · cases denied with
        | true =>
          rw [scanRecursive_denied cfg now name entries parent depth s h1
            ((Bool.not_eq_true _) ▸ h2)] at hf
          exact .inl hf
        | false =>
          have h2' : (cfg.skip_hidden_folders && startsWithDot name) = false :=
            (Bool.not_eq_true _) ▸ h2
          rw [scanRecursive] at hf
          rw [if_neg h1] at hf
          simp only [h2', Bool.false_eq_true, if_false, hpf, List.isEmpty_nil,
            eq_self_iff_true, if_true] at hf
          rcases (scanList_sound cfg now entries (parent ++ [name]) (depth + 1) _).1 f hf
            with h | h
          · exact .inl h
          · exact .inr (Nat.lt_of_succ_le h.2.2.2.1)

/-- The folder record produced by scanning the witness tree below. -/
def witDocsFolder : FolderInfo :=
  { guid := 0, path := ["docs"], name := "docs", file_count := 2,
    files := ["a.pdf", "b.txt"], parent_path := [], depth := 0, discovered_at := "t" }

theorem scan_folder_invariants_witness :
    ∀ f ∈ [witDocsFolder],
      f.file_count = f.files.length ∧ 1 ≤ f.files.length ∧
        ∀ n ∈ f.files, defaultConfig.is_supported_file n = true :=
  scan_folder_invariants.1 defaultConfig "t"
    (some (.dir "docs" false [.file "a.pdf", .file "b.txt", .file "notes.tmp"]))
    [] [] 0 _ (by rfl)

/-- C4: no folder reported by a scan lies deeper than the configured limit,
no directory strictly deeper than the limit has its entries enumerated
(the `enumDir` trace never exceeds the limit), and a call at a depth past
the limit records a warning and does nothing else. -/
theorem scan_depth_limit :
    (∀ cfg now root rootParent inst g fs,
      (scan cfg now root rootParent inst g).result = .ok fs →
      ∀ f ∈ fs, f.depth ≤ cfg.max_depth) ∧
    (∀ cfg now root rootParent inst g p d,
      TrackEvent.enumDir p d ∈ (scan cfg now root rootParent inst g).events →
      d ≤ cfg.max_depth) ∧
    (∀ cfg now name denied entries parent depth s, cfg.max_depth < depth →
      scanRecursive cfg now (.dir name denied entries) parent depth s =
        { s with events := s.events ++ [.warning "Max depth reached"] }) := by
  refine ⟨?_, ?_, ?_⟩
  · intro cfg now root rootParent inst g fs h f hf
    exact (scan_folders_ok cfg now root rootParent inst g fs h f hf).2.2.2.2
  · intro cfg now root rootParent inst g p d h
    exact scan_enum_events_bounded cfg now root rootParent inst g p d h
  · intro cfg now name denied entries parent depth s h
    exact scanRecursive_depth_exceeded cfg now name denied entries parent depth s h

theorem scan_depth_limit_witness :
    defaultConfig.max_depth < 11 ∧
    scanRecursive defaultConfig "t" (.dir "deep" false [.file "a.pdf"]) [] 11
        { folders := [], events := [], nextGuid := 0 } =
      { folders := [], events := [TrackEvent.warning "Max depth reached"], nextGuid := 0 } :=
  ⟨by decide, scan_depth_limit.2.2 defaultConfig "t" "deep" false [.file "a.pdf"] [] 11
    { folders := [], events := [], nextGuid := 0 } (by decide)⟩

/-- C7: with hidden-folder skipping enabled, a directory reached during the
traversal (within the depth limit) whose name begins with the hidden
marker is returned from immediately with the scan state unchanged, so
neither it nor any of its descendants is recorded as a folder or descended
into. -/
theorem scan_skips_hidden (cfg : Config) (now name : String) (denied : Bool)
    (entries : List FSEntry) (parent : List String) (depth : Nat) (s : ScanState)
    (hskip : cfg.skip_hidden_folders = true) (hname : startsWithDot name = true)
    (hdepth : ¬ cfg.max_depth < depth) :
    scanRecursive cfg now (.dir name denied entries) parent depth s = s :=
  scanRecursive_hidden cfg now name denied entries parent depth s hdepth
    (by rw [hskip, hname]; rfl)

theorem scan_skips_hidden_witness :
    defaultConfig.skip_hidden_folders = true ∧ startsWithDot ".git" = true ∧
    (¬ defaultConfig.max_depth < 1) ∧
    scanRecursive defaultConfig "t"
        (.dir ".git" false [.file "c.pdf", .dir "sub" false []]) ["root"] 1
        { folders := [], events := [], nextGuid := 5 } =
      { folders := [], events := [], nextGuid := 5 } :=
  ⟨rfl, by decide, by decide,
    scan_skips_hidden defaultConfig "t" ".git" false [.file "c.pdf", .dir "sub" false []]
      ["root"] 1 { folders := [], events := [], nextGuid := 5 } rfl (by decide) (by decide)⟩

/-- C10: `scan` and `process_folders` reset the instance's accumulated
result list at entry, so the outcome of a call — the returned list and the
instance state the corresponding `get_summary` reads — is independent of
whatever an earlier call on the same instance left behind. -/
theorem instance_state_reset :
    (∀ cfg now root rootParent (inst1 inst2 : List FolderInfo) g,
      scan cfg now root rootParent inst1 g = scan cfg now root rootParent inst2 g) ∧
    (∀ w folders (inst1 inst2 : List FolderResult) g now,
      processFolders w folders inst1 g now = processFolders w folders inst2 g now) :=
  ⟨fun _ _ _ _ _ _ _ => rfl, fun _ _ _ _ _ _ => rfl⟩

theorem baseName_append (p : List String) (n : String) : baseName (p ++ [n]) = n := by
  simp [baseName, List.getLastD_eq_getLast?, List.getLast?_concat]

theorem extractMetadata_raise (fw : FileWorld) (ft now msg : String)
    (h : fw.extract = .raise msg) : extractMetadata fw ft now = .error msg := by
  unfold extractMetadata
  rw [h]

theorem extractMetadata_ok (fw : FileWorld) (ft now : String)
    (stat : Option (String × String × String)) (h : fw.extract = .ok stat) :
    extractMetadata fw ft now = .ok (metadataDict stat ft now) := by
  unfold extractMetadata
  rw [h]

theorem metadataDict_extracted_at (stat : Option (String × String × String))
    (ft now : String) : ("extracted_at", MetaValue.str now) ∈ metadataDict stat ft now := by
  cases stat with
  | none =>
    simp only [metadataDict]
    split <;> simp
  | some t =>
    obtain ⟨c, mt, a⟩ := t
    simp only [metadataDict]
    split <;> simp

theorem metadataDict_stat_mem (c mt a ft now : String) :
    ("created", MetaValue.str c) ∈ metadataDict (some (c, mt, a)) ft now ∧
    ("modified", MetaValue.str mt) ∈ metadataDict (some (c, mt, a)) ft now ∧
    ("accessed", MetaValue.str a) ∈ metadataDict (some (c, mt, a)) ft now := by
  simp only [metadataDict]
  split <;> simp

theorem metadataDict_pdf_mem (stat : Option (String × String × String)) (now : String) :
    ("page_count", MetaValue.nullVal) ∈ metadataDict stat "pdf" now ∧
    ("pdf_version", MetaValue.nullVal) ∈ metadataDict stat "pdf" now := by
  cases stat with
  | none => simp [metadataDict]
  | some t =>
    obtain ⟨c, mt, a⟩ := t
    simp [metadataDict]

theorem processFile_fault (fw : FileWorld) (filepath : List String) (fg g : Nat)
    (now msg : String) (h : fw.outerFault = some msg) :
    processFile fw filepath fg g now = (.error msg, g) := by
  unfold processFile
  rw [h]

theorem processFile_completed (fw : FileWorld) (filepath : List String) (fg g : Nat)
    (now : String) (m : List (String × MetaValue)) (h : fw.outerFault = none)
    (hm : extractMetadata fw (getFileType filepath) now = .ok m) :
    processFile fw filepath fg g now =
      (.ok { file_guid := g, filename := baseName filepath, filepath := filepath,
             folder_guid := fg, status := .completed, file_type := getFileType filepath,
             file_size := fw.sizeResult.getD 0, processed_at := now,
             error_message := none, metadata := m }, g + 1) := by
  unfold processFile
  rw [h]
  simp only [hm]

theorem processFile_errored (fw : FileWorld) (filepath : List String) (fg g : Nat)
    (now msg : String) (h : fw.outerFault = none)
    (hm : extractMetadata fw (getFileType filepath) now = .error msg) :
    processFile fw filepath fg g now =
      (.ok { file_guid := g, filename := baseName filepath, filepath := filepath,
             folder_guid := fg, status := .error, file_type := getFileType filepath,
             file_size := fw.sizeResult.getD 0, processed_at := now,
             error_message := some msg, metadata := [] }, g + 1) := by
  unfold processFile
  rw [h]
  simp only [hm]

theorem processFile_ok_inv (fw : FileWorld) (filepath : List String) (fg g : Nat)
    (now : String) (r : FileResult) (g' : Nat)
    (h : processFile fw filepath fg g now = (.ok r, g')) :
    r.filename = baseName filepath ∧ (r.status = .completed ∨ r.status = .error) := by
  cases hf : fw.outerFault with
  | some msg =>
    rw [processFile_fault fw filepath fg g now msg hf] at h
    simp at h
  | none =>
    cases hm : extractMetadata fw (getFileType filepath) now with
    | ok m =>
      rw [processFile_completed fw filepath fg g now m hf hm] at h
      simp only [Prod.mk.injEq, Except.ok.injEq] at h
      obtain ⟨hr, hg⟩ := h
      subst hr
      exact ⟨rfl, .inl rfl⟩
    | error msg =>
      rw [processFile_errored fw filepath fg g now msg hf hm] at h
      simp only [Prod.mk.injEq, Except.ok.injEq] at h
      obtain ⟨hr, hg⟩ := h
      subst hr
      exact ⟨rfl, .inr rfl⟩

theorem stepFile_spec (w : World) (fp : List String) (fg : Nat) (now : String)
    (acc : FolderAcc) (f : String) :
    ∃ r : FileResult,
      (stepFile w fp fg now acc f).file_results = acc.file_results ++ [r] ∧
      r.filename = f ∧
      (stepFile w fp fg now acc f).processed + (stepFile w fp fg now acc f).errors +
        (stepFile w fp fg now acc f).skipped =
        acc.processed + acc.errors + acc.skipped + 1 := by
  unfold stepFile
  simp only []
  cases hp : processFile (w.fileAt (fp ++ [f])) (fp ++ [f]) fg acc.g now with
  | mk res g1 =>
    cases res with
    | ok r =>
      obtain ⟨hname, hst⟩ := processFile_ok_inv _ _ _ _ _ _ _ hp
      refine ⟨r, by simp, by rw [hname]; exact baseName_append fp f, ?_⟩
      simp only []
      rcases hst with h | h <;> rw [h] <;> simp <;> omega
    | error msg =>
      refine ⟨{ file_guid := g1, filename := f, filepath := fp ++ [f], folder_guid := fg,
                status := .error, file_type := getFileType (fp ++ [f]), file_size := 0,
                processed_at := now, error_message := some msg, metadata := [] },
              by simp, rfl, ?_⟩
      simp only []
      omega

theorem processFilesLoop_spec (w : World) (fp : List String) (fg : Nat) (now : String)
    (files : List String) (acc : FolderAcc) :
    ((processFilesLoop w fp fg now files acc).file_results.map (fun r => r.filename) =
      acc.file_results.map (fun r => r.filename) ++ files) ∧
    ((processFilesLoop w fp fg now files acc).file_results.length =
      acc.file_results.length + files.length) ∧
    ((processFilesLoop w fp fg now files acc).processed +
        (processFilesLoop w fp fg now files acc).errors +
        (processFilesLoop w fp fg now files acc).skipped =
      acc.processed + acc.errors + acc.skipped + files.length) := by
  induction files generalizing acc with
  | nil => simp [processFilesLoop]
  | cons f rest ih =>
    obtain ⟨r, hres, hname, hsum⟩ := stepFile_spec w fp fg now acc f
    have hih := ih (stepFile w fp fg now acc f)
    rw [processFilesLoop]
    refine ⟨?_, ?_, ?_⟩
    · rw [hih.1, hres]
      simp [hname]
    · rw [hih.2.1, hres]
      simp
      omega
    · rw [hih.2.2, hsum]
      simp
      omega

theorem processFolder_fault (w : World) (folder : FolderInfo) (g : Nat) (now msg : String)
    (h : w.folderFault folder.path = some msg) :
    processFolder w folder g now = .error msg := by
  unfold processFolder
  rw [h]

/-- C1: a folder whose folder-level processing does not fail yields a
`FolderResult` with exactly one `FileResult` per entry of the folder's file
list: `file_results` has length `total_files`, `total_files` is the length
of the folder's file list, the three status counters sum to `total_files`,
and the results appear in the same order as the file list (their filenames
are exactly the folder's files). -/
theorem processFolder_complete (w : World) (folder : FolderInfo) (g : Nat) (now : String)
    (fr : FolderResult) (g' : Nat) (h : processFolder w folder g now = .ok (fr, g')) :
    fr.file_results.length = fr.total_files ∧
    fr.total_files = folder.files.length ∧
    fr.processed_files + fr.error_files + fr.skipped_files = fr.total_files ∧
    fr.file_results.map (fun r => r.filename) = folder.files := by
  cases hf : w.folderFault folder.path with
  | some msg =>
    rw [processFolder_fault w folder g now msg hf] at h
    simp at h
  | none =>
    unfold processFolder at h
    rw [hf] at h
    simp only [Except.ok.injEq, Prod.mk.injEq] at h
    obtain ⟨hfr, hg⟩ := h
    subst hfr
    have hs := processFilesLoop_spec w folder.path folder.guid now folder.files
      { file_results := [], processed := 0, errors := 0, skipped := 0, g := g }
    refine ⟨?_, rfl, ?_, ?_⟩
    · simpa using hs.2.1
    · simpa using hs.2.2
    · simpa using hs.1

/-- World and folder for the C1 witness: one readable pdf file. -/
def witWorld : World :=
  { fileAt := fun _ => { outerFault := none, sizeResult := some 3, extract := .ok none }
    folderFault := fun _ => none }

/-- Folder input for the C1 witness. -/
def witFolder : FolderInfo :=
  { guid := 7, path := ["r", "d"], name := "d", file_count := 1, files := ["a.pdf"],
    parent_path := ["r"], depth := 0, discovered_at := "t" }

/-- The single `FileResult` the C1 witness run produces. -/
def witFileResult : FileResult :=
  { file_guid := 0, filename := "a.pdf", filepath := ["r", "d", "a.pdf"], folder_guid := 7,
    status := .completed, file_type := "pdf", file_size := 3, processed_at := "t",
    error_message := none,
    metadata := [("extracted_at", MetaValue.str "t"), ("page_count", MetaValue.nullVal),
                 ("pdf_version", MetaValue.nullVal)] }

/-- The `FolderResult` the C1 witness run produces. -/
def witFolderResult : FolderResult :=
  { folder_guid := 7, folder_path := ["r", "d"], folder_name := "d", total_files := 1,
    processed_files := 1, error_files := 0, skipped_files := 0,
    file_results := [witFileResult], started_at := "t", completed_at := some "t" }

theorem processFolder_complete_witness :
    witFolderResult.file_results.length = witFolderResult.total_files ∧
    witFolderResult.total_files = witFolder.files.length ∧
    witFolderResult.processed_files + witFolderResult.error_files +
      witFolderResult.skipped_files = witFolderResult.total_files ∧
    witFolderResult.file_results.map (fun r => r.filename) = witFolder.files :=
  processFolder_complete witWorld witFolder 0 "t" witFolderResult 1 (by rfl)

/-- C5: when `_process_file` runs to completion (no unexpected escape), a
successful metadata extraction gives status `completed`, the extracted
metadata (which always contains the extraction stamp) and no error
message; a failing extraction gives status `error`, the failure
description as the message and empty metadata; a failing size stat is
non-fatal and only forces `file_size = 0`, changing nothing else; and the
error message is present exactly when the status is `error`. -/
theorem processFile_status_contract (fw : FileWorld) (filepath : List String) (fg g : Nat)
    (now : String) (r : FileResult) (g' : Nat)
    (hrun : fw.outerFault = none)
    (h : processFile fw filepath fg g now = (.ok r, g')) :
    (∀ stat, fw.extract = .ok stat → r.status = .completed ∧ r.error_message = none ∧
      extractMetadata fw (getFileType filepath) now = .ok r.metadata ∧
      ("extracted_at", MetaValue.str now) ∈ r.metadata) ∧
    (∀ msg, fw.extract = .raise msg → r.status = .error ∧ r.error_message = some msg ∧
      r.metadata = []) ∧
    (fw.sizeResult = none → r.file_size = 0) ∧
    (r.error_message.isSome = true ↔ r.status = .error) ∧
    (processFile { fw with sizeResult := none } filepath fg g now =
      (.ok { r with file_size := 0 }, g')) := by
  cases he : fw.extract with
  | ok stat =>
    have hm := extractMetadata_ok fw (getFileType filepath) now stat he
    rw [processFile_completed fw filepath fg g now _ hrun hm] at h
    simp only [Prod.mk.injEq, Except.ok.injEq] at h
    obtain ⟨hr, hg⟩ := h
    subst hr
    subst hg
    refine ⟨?_, ?_, ?_, ?_, ?_⟩
    · intro stat2 he2
      exact ⟨rfl, rfl, hm, metadataDict_extracted_at stat (getFileType filepath) now⟩
    · intro msg he2
      cases he2
    · intro hsz
      simp [hsz]
    · simp
    · exact processFile_completed
        { outerFault := fw.outerFault, sizeResult := none, extract := ExtractOutcome.ok stat }
        filepath fg g now _ hrun (extractMetadata_ok _ (getFileType filepath) now stat rfl)
  | raise msg =>
    have hm := extractMetadata_raise fw (getFileType filepath) now msg he
    rw [processFile_errored fw filepath fg g now msg hrun hm] at h
    simp only [Prod.mk.injEq, Except.ok.injEq] at h
    obtain ⟨hr, hg⟩ := h
    subst hr
    subst hg
    refine ⟨?_, ?_, ?_, ?_, ?_⟩
    · intro stat2 he2
      cases he2
    · intro msg2 he2
      cases he2
      exact ⟨rfl, rfl, rfl⟩
    · intro hsz
      simp [hsz]
    · simp
    · exact processFile_errored
        { outerFault := fw.outerFault, sizeResult := none, extract := ExtractOutcome.raise msg }
        filepath fg g now msg hrun (extractMetadata_raise _ (getFileType filepath) now msg rfl)

/-- File-world for the C5 witness: the size stat fails, extraction
succeeds with no stat timestamps. -/
def witFileWorld : FileWorld :=
  { outerFault := none, sizeResult := none, extract := .ok none }

/-- The `FileResult` the C5 witness run produces. -/
def witC5Result : FileResult :=
  { file_guid := 4, filename := "b.txt", filepath := ["r", "b.txt"], folder_guid := 9,
    status := .completed, file_type := "txt", file_size := 0, processed_at := "t",
    error_message := none, metadata := [("extracted_at", MetaValue.str "t")] }

theorem processFile_status_contract_witness :
    (∀ stat, witFileWorld.extract = .ok stat → witC5Result.status = .completed ∧
      witC5Result.error_message = none ∧
      extractMetadata witFileWorld (getFileType ["r", "b.txt"]) "t" = .ok witC5Result.metadata ∧
      ("extracted_at", MetaValue.str "t") ∈ witC5Result.metadata) ∧
    (∀ msg, witFileWorld.extract = .raise msg → witC5Result.status = .error ∧
      witC5Result.error_message = some msg ∧ witC5Result.metadata = []) ∧
    (witFileWorld.sizeResult = none → witC5Result.file_size = 0) ∧
    (witC5Result.error_message.isSome = true ↔ witC5Result.status = .error) ∧
    (processFile { witFileWorld with sizeResult := none } ["r", "b.txt"] 9 4 "t" =
      (.ok { witC5Result with file_size := 0 }, 5)) :=
  processFile_status_contract witFileWorld ["r", "b.txt"] 9 4 "t" witC5Result 5 rfl (by rfl)

theorem processFolder_ok_guid (w : World) (folder : FolderInfo) (g : Nat) (now : String)
    (h : w.folderFault folder.path = none) :
    ∃ fr g', processFolder w folder g now = .ok (fr, g') ∧ fr.folder_guid = folder.guid := by
  unfold processFolder
  rw [h]
  exact ⟨_, _, rfl, rfl⟩

theorem processFoldersLoop_spec (w : World) (now : String) (folders : List FolderInfo)
    (acc : List FolderResult) (evs : List TrackEvent) (g : Nat) :
    ((processFoldersLoop w now folders acc evs g).results.map (fun fr => fr.folder_guid) =
      acc.map (fun fr => fr.folder_guid) ++
        (folders.filter (fun f => (w.folderFault f.path).isNone)).map (fun f => f.guid)) ∧
    ((processFoldersLoop w now folders acc evs g).events.length =
      evs.length + (folders.filter (fun f => (w.folderFault f.path).isSome)).length) := by
  induction folders generalizing acc evs g with
  | nil => simp [processFoldersLoop]
  | cons f rest ih =>
    rw [processFoldersLoop]
    cases hf : w.folderFault f.path with
    | none =>
      obtain ⟨fr, g', heq, hguid⟩ := processFolder_ok_guid w f g now hf
      rw [heq]
      simp only []
      have h2 := ih (acc ++ [fr]) evs g'
      constructor
      · rw [h2.1]
        simp [List.filter_cons, hf, hguid]
      · rw [h2.2]
        simp [List.filter_cons, hf]
    | some msg =>
      rw [processFolder_fault w f g now msg hf]
      simp only []
      have h2 := ih acc (evs ++ [.error ("Failed to process folder: " ++ msg)]) g
      constructor
      · rw [h2.1]
        simp [List.filter_cons, hf]
      · rw [h2.2]
        simp [List.filter_cons, hf]
        omega

/-- C6: `process_folders` never fails as a whole for any input: its output
is exactly the (in-order) results of the folders whose folder-level
processing did not fail — identified by their guids — and every failed
folder is omitted from the results, contributing one logged error event
instead, while processing continues with the remaining folders. -/
theorem processFolders_never_fails (w : World) (folders : List FolderInfo)
    (inst : List FolderResult) (g : Nat) (now : String) :
    ((processFolders w folders inst g now).results.map (fun fr => fr.folder_guid) =
      (folders.filter (fun f => (w.folderFault f.path).isNone)).map (fun f => f.guid)) ∧
    ((processFolders w folders inst g now).events.length =
      (folders.filter (fun f => (w.folderFault f.path).isSome)).length) := by
  have h := processFoldersLoop_spec w now folders [] [] g
  exact ⟨by simpa using h.1, by simpa using h.2⟩

/-- C8: `get_summary` reports the folder count, the four file totals as
sums over the folder results, and a success rate equal to
`processed / total_files × 100`, defined as `0` when `total_files = 0`. -/
theorem getSummary_correct (results : List FolderResult) :
    (getSummary results).total_folders = results.length ∧
    (getSummary results).total_files = (results.map (fun r => r.total_files)).sum ∧
    (getSummary results).total_processed = (results.map (fun r => r.processed_files)).sum ∧
    (getSummary results).total_errors = (results.map (fun r => r.error_files)).sum ∧
    (getSummary results).total_skipped = (results.map (fun r => r.skipped_files)).sum ∧
    ((getSummary results).total_files = 0 → (getSummary results).success_rate = 0) ∧
    (0 < (getSummary results).total_files →
      (getSummary results).success_rate =
        ((getSummary results).total_processed : Rat) /
          ((getSummary results).total_files : Rat) * 100) := by
  refine ⟨rfl, rfl, rfl, rfl, rfl, ?_, ?_⟩
  · intro h
    simp only [getSummary] at h ⊢
    rw [if_neg (by omega)]
  · intro h
    simp only [getSummary] at h ⊢
    rw [if_pos h]

/-- Folder results for the C8 witness: two files, one processed. -/
def witResults : List FolderResult :=
  [{ folder_guid := 1, folder_path := ["r"], folder_name := "r", total_files := 2,
     processed_files := 1, error_files := 1, skipped_files := 0, file_results := [],
     started_at := "t", completed_at := some "t" }]

theorem getSummary_correct_witness :
    0 < (getSummary witResults).total_files ∧
    (getSummary witResults).success_rate =
      ((getSummary witResults).total_processed : Rat) /
        ((getSummary witResults).total_files : Rat) * 100 :=
  ⟨by decide, (getSummary_correct witResults).2.2.2.2.2.2 (by decide)⟩

theorem primary_file_is_pdf (p : List String)
    (h : defaultConfig.is_primary_file (baseName p) = true) : getFileType p = "pdf" := by
  simp only [Config.is_primary_file] at h
  have h2 : strLower (splitextExt (baseName p)) = defaultConfig.primary_extension :=
    eq_of_beq h
  unfold getFileType
  rw [h2]
  rfl

/-- C9: a file of the configured primary type (the `.pdf` extension,
compared case-insensitively) whose metadata extraction succeeds gets a
metadata map containing the two reserved keys `page_count` and
`pdf_version` populated with `None`, alongside the extraction timestamp
and the best-effort filesystem timestamps. -/
theorem processFile_primary_metadata (fw : FileWorld) (filepath : List String) (fg g : Nat)
    (now : String) (stat : Option (String × String × String)) (r : FileResult) (g' : Nat)
    (hrun : fw.outerFault = none) (he : fw.extract = .ok stat)
    (hp : defaultConfig.is_primary_file (baseName filepath) = true)
    (h : processFile fw filepath fg g now = (.ok r, g')) :
    ("page_count", MetaValue.nullVal) ∈ r.metadata ∧
    ("pdf_version", MetaValue.nullVal) ∈ r.metadata ∧
    ("extracted_at", MetaValue.str now) ∈ r.metadata ∧
    (∀ c mt a, stat = some (c, mt, a) →
      ("created", MetaValue.str c) ∈ r.metadata ∧
      ("modified", MetaValue.str mt) ∈ r.metadata ∧
      ("accessed", MetaValue.str a) ∈ r.metadata) := by
  have hft := primary_file_is_pdf filepath hp
  have hm := extractMetadata_ok fw (getFileType filepath) now stat he
  rw [processFile_completed fw filepath fg g now _ hrun hm] at h
  simp only [Prod.mk.injEq, Except.ok.injEq] at h
  obtain ⟨hr, hg⟩ := h
  subst hr
  rw [hft]
  refine ⟨(metadataDict_pdf_mem stat now).1, (metadataDict_pdf_mem stat now).2,
    metadataDict_extracted_at stat "pdf" now, ?_⟩
  intro c mt a hstat
  subst hstat
  exact metadataDict_stat_mem c mt a "pdf" now

/-- File-world for the C9 witness: stat timestamps available. -/
def witC9World : FileWorld :=
  { outerFault := none, sizeResult := some 2, extract := .ok (some ("c", "m", "a")) }

/-- The `FileResult` the C9 witness run produces. -/
def witC9Result : FileResult :=
  { file_guid := 0, filename := "doc.PDF", filepath := ["r", "doc.PDF"], folder_guid := 1,
    status := .completed, file_type := "pdf", file_size := 2, processed_at := "t",
    error_message := none,
    metadata := [("extracted_at", MetaValue.str "t"), ("created", MetaValue.str "c"),
                 ("modified", MetaValue.str "m"), ("accessed", MetaValue.str "a"),
                 ("page_count", MetaValue.nullVal), ("pdf_version", MetaValue.nullVal)] }

theorem processFile_primary_metadata_witness :
    ("page_count", MetaValue.nullVal) ∈ witC9Result.metadata ∧
    ("pdf_version", MetaValue.nullVal) ∈ witC9Result.metadata ∧
    ("extracted_at", MetaValue.str "t") ∈ witC9Result.metadata ∧
    (∀ c mt a, (some ("c", "m", "a") : Option (String × String × String)) = some (c, mt, a) →
      ("created", MetaValue.str c) ∈ witC9Result.metadata ∧
      ("modified", MetaValue.str mt) ∈ witC9Result.metadata ∧
      ("accessed", MetaValue.str a) ∈ witC9Result.metadata) :=
  processFile_primary_metadata witC9World ["r", "doc.PDF"] 1 0 "t" (some ("c", "m", "a"))
    witC9Result 1 rfl rfl (by decide) (by rfl)
